import Mathlib

/-! Prime search over a list of integers: `mpi.c` and `openmp.c`

A shallow embedding of the two programs of the repository and the properties of
their partition / evaluate / aggregate pipeline.

Conventions of the embedding.

* A C `int` is a Lean `Int`; `int` has 32 bits.  The loaded values come from `atoi` on
  digit strings or are the error value `-1`, and `atoi` has no value (`none`) on a number
  above `INT_MAX`.  Every arithmetic step of the programs on the loaded values (`j++`
  below the element, `n % j` with `2 ≤ j < n`, counters bounded by the list length) stays
  inside the `int` range, so no wrap-around is modelled.
* A run whose behaviour the C standard leaves undefined has no outcome (`none`).
* A C `for` loop whose counter is not written by the body is a recursion over the list
  of the values the counter takes, in increasing order.
* The MPI collectives are total functions on the data of all ranks: `MPI_Scatter`
  hands rank `r` the block `[r * cnt, (r + 1) * cnt)` of the root buffer, `MPI_Gather`
  writes the block of rank `r` back at the same place, `MPI_Reduce` with `MPI_SUM`
  adds the local values.
* The OpenMP loop is a sequence of iterations, one per claimed index, each critical
  section executed atomically; the order of the indices is a parameter.
-/

namespace FindPrimes

/-! ## Primality evaluation loop (mpi.c 202-210, openmp.c 178-187) -/

/-- Values taken by the counter of `for (j = 2; j < n; j++)`, in order: `2, 3, ..., n - 1`
(none when `n ≤ 2`). -/
def j_range (n : Int) : List Int :=
  (List.range (n - 2).toNat).map (fun (k : Nat) => (k : Int) + 2)

/-- Body of the inner loop over the remaining counter values: the flag `prime` starts as
`true`; the first `j` with `n % j == 0` sets it to `false` and breaks.  `Int.tmod` is the
truncating remainder of C. -/
def trial_division (n : Int) : List Int → Bool
  | [] => true
  | j :: js => if Int.tmod n j = 0 then false else trial_division n js

/-- Value of the flag `prime` after the inner loop has run for the element `n`. -/
def prime_flag (n : Int) : Bool :=
  trial_division n (j_range n)

/-! ## Loader (mpi.c 27-69 and 112-180, openmp.c 28-70 and 91-162) -/

/-- The function `ascii_to_num`: the character code minus 48.  A character above 127 is
negative as a signed `char` and large as a code point; it is no digit either way. -/
def ascii_to_num (ascii_char : Char) : Int :=
  (ascii_char.toNat : Int) - 48

/-- The function `is_number`: walks the string up to its terminating NUL (or the end of
the characters given) and fails at the first character that is not a decimal digit.  The
empty string passes. -/
def is_number : List Char → Bool
  | [] => true
  | c :: cs =>
    if c = Char.ofNat 0 then true
    else if ascii_to_num c < 0 ∨ ascii_to_num c > 9 then false
    else is_number cs

/-- Digit accumulation of the C library `atoi`, started at `acc`: it stops at the first
character that is not a digit. -/
def atoi_from (acc : Int) : List Char → Int
  | [] => acc
  | c :: cs =>
    if 0 ≤ ascii_to_num c ∧ ascii_to_num c ≤ 9 then atoi_from (acc * 10 + ascii_to_num c) cs
    else acc

/-- The macro `FILE_LINE_BUFF_SIZE`: the size of the line buffer and of `str_buff_tmp`. -/
def FILE_LINE_BUFF_SIZE : Nat := 128

/-- The largest value of an `int`. -/
def INT_MAX : Int := 2147483647

/-- The C library `atoi` on the strings the programs call it with (they passed
`is_number`, so there is neither leading blank nor sign).  A number that does not fit an
`int` has no defined value: `none`. -/
def atoi (s : List Char) : Option Int :=
  if atoi_from 0 s ≤ INT_MAX then some (atoi_from 0 s) else none

/-- The function `get_next_num_from_file` on the line that `getline` returns (with its
line terminator): the last character is erased, then the rest is `-1` when it is not a
number and its `atoi` value otherwise.  `getline` returns at least one character for a
line it reads.  For a line of `FILE_LINE_BUFF_SIZE` characters or more `getline`
reallocates the buffer through the copy of the pointer that the function holds, and the
pointer of `main` is stale at its next use (the next call, or the `free` at the end):
the behaviour is undefined and the result is `none`. -/
def get_next_num_from_file (line : List Char) : Option Int :=
  if line.length = 0 ∨ FILE_LINE_BUFF_SIZE ≤ line.length then none
  else
    let line_buff := line.dropLast
    if !is_number line_buff then some (-1) else atoi line_buff

/-- The loop `for (i = 0; i < num_of_ints; i++) int_list[i] = get_next_num_from_file(...)`
over the lines left in the file.  When the file has fewer lines than `num_of_ints`,
`getline` returns `-1` and the function writes before the start of the buffer: the
behaviour is undefined and the result is `none`, as it is when one of the calls has no
defined result. -/
def load_list : Nat → List (List Char) → Option (List Int)
  | 0, _ => some []
  | _ + 1, [] => none
  | n + 1, line :: lines =>
    match get_next_num_from_file line with
    | none => none
    | some v => (load_list n lines).map (fun tl => v :: tl)

/-- The value that the loader stores for a line on which `get_next_num_from_file` is
defined. -/
def line_value (line : List Char) : Int :=
  if is_number line.dropLast = true then atoi_from 0 line.dropLast else -1

/-- What the process meets outside its own code: the argument count, the input file
(`none` when `fopen` fails, otherwise its lines as `getline` returns them, each with its
terminator and each character standing for one byte of the file), whether the output
file opens, and whether each `fclose` succeeds. -/
structure Env where
  argc : Nat
  input : Option (List (List Char))
  output_opens : Bool
  close_input_ok : Bool
  close_output_ok : Bool

/-- Where the common first part of `main` ends (the two programs agree on it):
`exit code` is a `return code` before the label `cleanup`, `cleanup ret_val` is a
`goto cleanup`, `undefined` is a start that the model does not determine (undefined
behaviour in the load, or a header line that makes `getline` grow the buffer to a size of
the C library's choice), and `ready int_list` is the loaded list with both files open. -/
inductive Startup where
  | exit (code : Int)
  | cleanup (ret_val : Int)
  | undefined
  | ready (int_list : List Int)
  deriving DecidableEq

/-- First part of `main`: argument check, `fopen`, header check, length check, load,
`fopen` of the output file.  A header line shorter than `FILE_LINE_BUFF_SIZE` leaves the
line buffer at that size and its number text, with a terminating NUL, fits
`str_buff_tmp`. -/
def startup (env : Env) : Startup :=
  if env.argc ≠ 2 then Startup.exit 1
  else
    match env.input with
    | none => Startup.exit 2
    | some [] => Startup.cleanup 3
    | some (line_buff :: lines) =>
      if line_buff.length < 11 ∨ line_buff.take 9 ≠ "list_len=".toList then Startup.cleanup 3
      else if FILE_LINE_BUFF_SIZE ≤ line_buff.length then Startup.undefined
      else
        let str_buff_tmp := (line_buff.drop 9).take (line_buff.length - 10)
        if !is_number str_buff_tmp then Startup.cleanup 4
        else
          match atoi str_buff_tmp with
          | none => Startup.undefined
          | some num_of_ints =>
            match load_list num_of_ints.toNat lines with
            | none => Startup.undefined
            | some int_list =>
              if !env.output_opens then Startup.cleanup 5 else Startup.ready int_list

/-- What a run leaves: the exit status, the count printed in the header line (if one was
printed) and the values printed below it. -/
structure Outcome where
  exit_status : Int
  header : Option Nat
  body : List Int
  deriving DecidableEq

/-! ## Distributed engine (mpi.c 186-250) -/

/-- The chunk length `num_of_sub_ints = num_of_ints / num_of_processes`. -/
def num_of_sub_ints (num_of_ints num_of_processes : Nat) : Nat :=
  num_of_ints / num_of_processes

/-- Number of entries of the root buffer that lie in some block of the scatter and of
the gather: `num_of_processes` blocks of `num_of_sub_ints` entries. -/
def covered (num_of_ints num_of_processes : Nat) : Nat :=
  num_of_processes * num_of_sub_ints num_of_ints num_of_processes

/-- What `MPI_Scatter` with `sendcount` elements per rank delivers to `rank`: the block
of the root buffer that starts at `rank * sendcount`. -/
def MPI_Scatter {α : Type} (sendbuf : List α) (sendcount rank : Nat) : List α :=
  (sendbuf.drop (rank * sendcount)).take sendcount

/-- Indices of the root buffer that the scatter of `main` hands to `rank`. -/
def partition_indices (num_of_ints num_of_processes rank : Nat) : List Nat :=
  MPI_Scatter (List.range num_of_ints) (num_of_sub_ints num_of_ints num_of_processes) rank

/-- One pass of the loop body of lines 200-219 on the element `x`; the state is
`local_prime_cnt` and the entries of `sub_int_list` already passed. -/
def local_step (s : Nat × List Int) (x : Int) : Nat × List Int :=
  if prime_flag x = true then (s.1 + 1, s.2 ++ [x]) else (s.1, s.2 ++ [-1])

/-- What one pass of the loop body leaves in place of the element `x` (lines 211-218). -/
def patched (x : Int) : Int :=
  if prime_flag x = true then x else -1

/-- The loop of lines 200-219 on one rank: `local_prime_cnt` and the patched
`sub_int_list`. -/
def local_loop (sub_int_list : List Int) : Nat × List Int :=
  sub_int_list.foldl local_step (0, [])

/-- `MPI_Reduce` with `MPI_SUM` on the local values, rank by rank. -/
def MPI_Reduce_sum (local_values : List Nat) : Nat :=
  local_values.sum

/-- `MPI_Gather` into the root buffer: the blocks of the ranks are stored one after the
other from index 0; entries of the buffer beyond them are not written. -/
def MPI_Gather (recvbuf : List Int) (blocks : List (List Int)) : List Int :=
  blocks.flatten ++ recvbuf.drop blocks.flatten.length

/-- The local results of all ranks `0 .. num_of_processes - 1`. -/
def mpi_locals (num_of_processes : Nat) (int_list : List Int) : List (Nat × List Int) :=
  (List.range num_of_processes).map (fun rank =>
    local_loop (MPI_Scatter int_list (num_of_sub_ints int_list.length num_of_processes) rank))

/-- The value of `global_prime_cnt` at the root after the reduction. -/
def mpi_global_prime_cnt (num_of_processes : Nat) (int_list : List Int) : Nat :=
  MPI_Reduce_sum ((mpi_locals num_of_processes int_list).map Prod.fst)

/-- The buffer `int_list` at the root after the gather. -/
def mpi_gathered (num_of_processes : Nat) (int_list : List Int) : List Int :=
  MPI_Gather int_list ((mpi_locals num_of_processes int_list).map Prod.snd)

/-- The loop of lines 244-250: every entry of the buffer that is not `-1`, in index
order. -/
def write_body (int_list : List Int) : List Int :=
  int_list.filter (fun x => decide (x ≠ -1))

/-- The values the root prints below the header. -/
def mpi_body (num_of_processes : Nat) (int_list : List Int) : List Int :=
  write_body (mpi_gathered num_of_processes int_list)

/-- Exit status of `mpi.c` from the label `cleanup` on, with both files open: a failed
`fclose` of the input sets `ret_val = 4`, a failed `fclose` of the output is
`return 1`. -/
def mpi_cleanup (env : Env) (ret_val : Int) : Int :=
  let ret_val := if env.close_input_ok then ret_val else 4
  if env.close_output_ok then ret_val else 1

/-- The root process of `mpi.c` among `num_of_processes` ranks.  After a `goto cleanup`
the root calls `fprintf` on `file_gen_ptr`, which is declared without a value (line 77)
and not yet assigned or is the null pointer of the failed `fopen`, and after the first
two jumps it reads `num_of_ints` and `int_list` unassigned: the behaviour is undefined and
the run has no outcome. -/
def mpi_main (num_of_processes : Nat) (env : Env) : Option Outcome :=
  match startup env with
  | Startup.exit code => some ⟨code, none, []⟩
  | Startup.cleanup _ => none
  | Startup.undefined => none
  | Startup.ready int_list =>
    some ⟨mpi_cleanup env 0, some (mpi_global_prime_cnt num_of_processes int_list),
      mpi_body num_of_processes int_list⟩

/-! ## Shared-memory engine (openmp.c 175-229) -/

/-- One iteration of the parallel loop for the claimed index `i`; the state is
`prime_cnt` and the values printed so far.  The critical section does both updates in
one step.  An index outside the list is never claimed and leaves the state as it is. -/
def openmp_iteration (int_list : List Int) (s : Nat × List Int) (i : Nat) : Nat × List Int :=
  match int_list[i]? with
  | some x => if prime_flag x = true then (s.1 + 1, s.2 ++ [x]) else s
  | none => s

/-- The value that the iteration for the index `i` prints, if it prints one. -/
def openmp_kept (int_list : List Int) (i : Nat) : Option Int :=
  match int_list[i]? with
  | some x => if prime_flag x = true then some x else none
  | none => none

/-- The parallel loop with its iterations taken in the given order. -/
def openmp_loop (int_list : List Int) (order : List Nat) : Nat × List Int :=
  order.foldl (openmp_iteration int_list) (0, [])

/-- Exit status of `openmp.c` from the label `cleanup` on, with both files open: a failed
`fclose` of the input sets `ret_val = 6`, a failed `fclose` of the output sets
`ret_val = 7`. -/
def openmp_cleanup (env : Env) (ret_val : Int) : Int :=
  let ret_val := if env.close_input_ok then ret_val else 6
  if env.close_output_ok then ret_val else 7

/-- The program `openmp.c` with the iterations of its loop taken in the given order.
The field `body` is the sequence of values printed by the loop and `header` the count
printed after `rewind`; the bytes of the file are not modelled.  After a `goto cleanup`
the program calls `fclose` on the null `file_gen_ptr` (line 219) and, after the first two
jumps, `free` on `int_list` unassigned: the behaviour is undefined and the run has no
outcome. -/
def openmp_main (env : Env) (order : List Nat) : Option Outcome :=
  match startup env with
  | Startup.exit code => some ⟨code, none, []⟩
  | Startup.cleanup _ => none
  | Startup.undefined => none
  | Startup.ready int_list =>
    some ⟨openmp_cleanup env 0, some (openmp_loop int_list order).1,
      (openmp_loop int_list order).2⟩

/-! ## Facts on the evaluation loop -/

theorem mem_j_range (n j : Int) : j ∈ j_range n ↔ 2 ≤ j ∧ j < n := by
  unfold j_range
  simp only [List.mem_map, List.mem_range]
  constructor
  · rintro ⟨k, hk, rfl⟩
    omega
  · rintro ⟨h2, hn⟩
    exact ⟨(j - 2).toNat, by omega, by omega⟩

theorem trial_division_eq_true (n : Int) (js : List Int) :
    trial_division n js = true ↔ ∀ j ∈ js, Int.tmod n j ≠ 0 := by
  induction js with
  | nil => simp [trial_division]
  | cons j js ih =>
    by_cases h : Int.tmod n j = 0
    · simp [trial_division, h]
    · simp [trial_division, h, ih]

theorem prime_flag_eq_true (n : Int) :
    prime_flag n = true ↔ ∀ j : Int, 2 ≤ j → j < n → Int.tmod n j ≠ 0 := by
  unfold prime_flag
  rw [trial_division_eq_true]
  constructor
  · intro h j h2 hn
    exact h j ((mem_j_range n j).2 ⟨h2, hn⟩)
  · intro h j hj
    exact h j ((mem_j_range n j).1 hj).1 ((mem_j_range n j).1 hj).2

theorem prime_flag_of_le_two (n : Int) (h : n ≤ 2) : prime_flag n = true := by
  rw [prime_flag_eq_true]
  intro j h2 hn
  omega

theorem prime_flag_iff_no_divisor (n : Int) (h : 2 ≤ n) :
    prime_flag n = true ↔ ∀ j : Int, 2 ≤ j → j < n → ¬ j ∣ n := by
  rw [prime_flag_eq_true]
  constructor
  · intro hf j h2 hn hd
    apply hf j h2 hn
    rw [Int.tmod_eq_emod (by omega) (by omega)]
    exact Int.emod_eq_zero_of_dvd hd
  · intro hf j h2 hn hz
    apply hf j h2 hn
    rw [Int.tmod_eq_emod (by omega) (by omega)] at hz
    exact Int.dvd_of_emod_eq_zero hz

theorem no_divisor_iff_prime (n : Int) (h : 2 ≤ n) :
    (∀ j : Int, 2 ≤ j → j < n → ¬ j ∣ n) ↔ Nat.Prime n.toNat := by
  obtain ⟨m, rfl⟩ : ∃ m : Nat, n = (m : Int) := ⟨n.toNat, by omega⟩
  have hm : 2 ≤ m := by omega
  simp only [Int.toNat_ofNat]
  rw [Nat.prime_def_lt]
  constructor
  · intro hf
    refine ⟨hm, fun d hd hdvd => ?_⟩
    by_contra h1
    have hd0 : d ≠ 0 := by
      rintro rfl
      simp at hdvd
      omega
    exact hf (d : Int) (by omega) (by omega) (Int.natCast_dvd_natCast.2 hdvd)
  · rintro ⟨-, hf⟩ j h2 hn hdvd
    obtain ⟨d, rfl⟩ : ∃ d : Nat, j = (d : Int) := ⟨j.toNat, by omega⟩
    have := hf d (by omega) (Int.natCast_dvd_natCast.1 hdvd)
    omega


/-! ## Facts on the distributed engine -/

theorem foldl_local_step (sub : List Int) (c : Nat) (done : List Int) :
    sub.foldl local_step (c, done) =
      (c + sub.countP prime_flag, done ++ sub.map patched) := by
  induction sub generalizing c done with
  | nil => simp
  | cons x xs ih =>
    rw [List.foldl_cons, local_step]
    by_cases hx : prime_flag x = true
    · simp only [hx, if_true, ih, List.countP_cons_of_pos, List.map_cons, patched,
        List.append_assoc, List.singleton_append]
      rw [Nat.add_assoc, Nat.add_comm 1]
    · have hx2 : prime_flag x = false := by simpa using hx
      simp [hx2, ih, patched]

theorem local_loop_eq (sub : List Int) :
    local_loop sub = (sub.countP prime_flag, sub.map patched) := by
  unfold local_loop
  rw [foldl_local_step]
  simp

theorem scatter_blocks_flatten {α : Type} (l : List α) (cnt W : Nat) :
    ((List.range W).map (fun rank => MPI_Scatter l cnt rank)).flatten = l.take (W * cnt) := by
  induction W with
  | zero => simp
  | succ W ih =>
    rw [List.range_succ, List.map_append, List.flatten_append, ih, Nat.succ_mul, List.take_add]
    simp [MPI_Scatter]

theorem covered_le (N W : Nat) : covered N W ≤ N := by
  unfold covered num_of_sub_ints
  rw [Nat.mul_comm]
  exact Nat.div_mul_le_self N W

theorem covered_of_dvd (N W : Nat) (h : W ∣ N) : covered N W = N := by
  unfold covered num_of_sub_ints
  exact Nat.mul_div_cancel' h

theorem mpi_locals_fst (W : Nat) (l : List Int) :
    ((mpi_locals W l).map Prod.fst).sum = (l.take (covered l.length W)).countP prime_flag := by
  unfold mpi_locals covered
  generalize num_of_sub_ints l.length W = cnt
  induction W with
  | zero => simp
  | succ W ih =>
    rw [List.range_succ, List.map_append, List.map_append, List.sum_append, ih, Nat.succ_mul,
      List.take_add, List.countP_append]
    simp [local_loop_eq, MPI_Scatter]

theorem mpi_locals_snd (W : Nat) (l : List Int) :
    ((mpi_locals W l).map Prod.snd).flatten = (l.take (covered l.length W)).map patched := by
  unfold mpi_locals covered
  generalize num_of_sub_ints l.length W = cnt
  induction W with
  | zero => simp
  | succ W ih =>
    rw [List.range_succ, List.map_append, List.map_append, List.flatten_append, ih, Nat.succ_mul,
      List.take_add, List.map_append]
    simp [local_loop_eq, MPI_Scatter]

theorem mpi_global_prime_cnt_eq (W : Nat) (l : List Int) :
    mpi_global_prime_cnt W l = (l.take (covered l.length W)).countP prime_flag := by
  unfold mpi_global_prime_cnt MPI_Reduce_sum
  exact mpi_locals_fst W l

theorem mpi_gathered_eq (W : Nat) (l : List Int) :
    mpi_gathered W l =
      (l.take (covered l.length W)).map patched ++ l.drop (covered l.length W) := by
  unfold mpi_gathered MPI_Gather
  rw [mpi_locals_snd]
  have h := covered_le l.length W
  simp [List.length_take, Nat.min_eq_left h]

theorem write_body_patched (xs : List Int) :
    write_body (xs.map patched) =
      xs.filter (fun x => prime_flag x && decide (x ≠ -1)) := by
  induction xs with
  | nil => simp [write_body]
  | cons x xs ih =>
    unfold write_body at ih ⊢
    rw [List.map_cons, List.filter_cons, List.filter_cons, ih]
    by_cases hx : prime_flag x = true
    · simp [patched, hx]
    · simp [patched, hx]

theorem mpi_body_eq (W : Nat) (l : List Int) :
    mpi_body W l =
      (l.take (covered l.length W)).filter (fun x => prime_flag x && decide (x ≠ -1)) ++
        write_body (l.drop (covered l.length W)) := by
  unfold mpi_body
  rw [mpi_gathered_eq]
  conv_lhs => unfold write_body
  rw [List.filter_append]
  congr 1
  exact write_body_patched _

theorem partitions_flatten (N W : Nat) :
    ((List.range W).map (fun rank => partition_indices N W rank)).flatten =
      List.range (covered N W) := by
  unfold partition_indices
  rw [scatter_blocks_flatten]
  unfold covered
  rw [List.take_range, Nat.min_eq_left]
  have := covered_le N W
  unfold covered at this
  exact this

/-! ## Facts on the shared-memory engine -/

theorem foldl_openmp_iteration (l : List Int) (order : List Nat) (c : Nat) (out : List Int) :
    order.foldl (openmp_iteration l) (c, out) =
      (c + (order.filterMap (openmp_kept l)).length, out ++ order.filterMap (openmp_kept l)) := by
  induction order generalizing c out with
  | nil => simp
  | cons i is ih =>
    rw [List.foldl_cons, ih]
    unfold openmp_iteration
    cases hi : l[i]? with
    | none => simp [openmp_kept, hi]
    | some x =>
      by_cases hx : prime_flag x = true
      · simp [openmp_kept, hi, hx]
        omega
      · have hx2 : prime_flag x = false := by simpa using hx
        simp [openmp_kept, hi, hx2]

theorem openmp_loop_eq (l : List Int) (order : List Nat) :
    openmp_loop l order =
      ((order.filterMap (openmp_kept l)).length, order.filterMap (openmp_kept l)) := by
  unfold openmp_loop
  rw [foldl_openmp_iteration]
  simp

theorem filterMap_openmp_kept_range (l : List Int) :
    (List.range l.length).filterMap (openmp_kept l) = l.filter prime_flag := by
  induction l using List.reverseRecOn with
  | nil => simp
  | append_singleton xs x ih =>
    rw [List.length_append, List.length_singleton, List.range_succ, List.filterMap_append,
      List.filter_append]
    have hpre : (List.range xs.length).filterMap (openmp_kept (xs ++ [x])) =
        (List.range xs.length).filterMap (openmp_kept xs) := by
      apply List.filterMap_congr
      intro i hi
      have hi2 : i < xs.length := List.mem_range.1 hi
      simp [openmp_kept, List.getElem?_append_left hi2]
    rw [hpre, ih]
    congr 1
    by_cases hx : prime_flag x = true
    · simp [openmp_kept, hx]
    · have hx2 : prime_flag x = false := by simpa using hx
      simp [openmp_kept, hx2]

theorem openmp_loop_index_order (l : List Int) :
    openmp_loop l (List.range l.length) = (l.countP prime_flag, l.filter prime_flag) := by
  rw [openmp_loop_eq, filterMap_openmp_kept_range, List.countP_eq_length_filter]

theorem mpi_body_of_dvd (W : Nat) (l : List Int) (hdiv : W ∣ l.length)
    (hne : ∀ x ∈ l, x ≠ -1) : mpi_body W l = l.filter prime_flag := by
  rw [mpi_body_eq, covered_of_dvd _ _ hdiv, List.take_length, List.drop_length]
  have hf : l.filter (fun x => prime_flag x && decide (x ≠ -1)) = l.filter prime_flag := by
    apply List.filter_congr
    intro x hx
    simp [hne x hx]
  rw [hf]
  simp [write_body]

theorem mpi_global_prime_cnt_of_dvd (W : Nat) (l : List Int) (hdiv : W ∣ l.length) :
    mpi_global_prime_cnt W l = l.countP prime_flag := by
  rw [mpi_global_prime_cnt_eq, covered_of_dvd _ _ hdiv, List.take_length]

/-! ## Facts on the loader and the exit paths -/

theorem is_number_of_digits (s : List Char)
    (h : ∀ c ∈ s, 0 ≤ ascii_to_num c ∧ ascii_to_num c ≤ 9) : is_number s = true := by
  induction s with
  | nil => rfl
  | cons c cs ih =>
    unfold is_number
    by_cases hc : c = Char.ofNat 0
    · simp [hc]
    · have hd := h c (List.mem_cons_self c cs)
      have hnot : ¬ (ascii_to_num c < 0 ∨ ascii_to_num c > 9) := by omega
      rw [if_neg hc, if_neg hnot]
      exact ih (fun d hd2 => h d (List.mem_cons_of_mem c hd2))

theorem is_number_of_non_digit (s : List Char) (hnul : ∀ c ∈ s, c ≠ Char.ofNat 0)
    (hbad : ∃ c ∈ s, ascii_to_num c < 0 ∨ 9 < ascii_to_num c) : is_number s = false := by
  induction s with
  | nil =>
    obtain ⟨c, hc, -⟩ := hbad
    simp at hc
  | cons c cs ih =>
    unfold is_number
    rw [if_neg (hnul c (List.mem_cons_self c cs))]
    by_cases hd : ascii_to_num c < 0 ∨ ascii_to_num c > 9
    · rw [if_pos hd]
    · rw [if_neg hd]
      apply ih (fun d hd2 => hnul d (List.mem_cons_of_mem c hd2))
      obtain ⟨d, hdmem, hdbad⟩ := hbad
      rcases List.mem_cons.1 hdmem with rfl | hmem
      · exact absurd (by omega) hd
      · exact ⟨d, hmem, hdbad⟩

theorem get_next_num_eq (line : List Char) (h1 : line.length ≠ 0)
    (h2 : line.length < FILE_LINE_BUFF_SIZE) (h3 : atoi_from 0 line.dropLast ≤ INT_MAX) :
    get_next_num_from_file line = some (line_value line) := by
  unfold get_next_num_from_file line_value
  have hg : ¬ (line.length = 0 ∨ FILE_LINE_BUFF_SIZE ≤ line.length) := by omega
  rw [if_neg hg]
  by_cases hn : is_number line.dropLast = true
  · simp [hn, atoi, h3]
  · have hn2 : is_number line.dropLast = false := by simpa using hn
    simp [hn2]

theorem load_list_eq (n : Nat) (lines : List (List Char)) (h : n ≤ lines.length)
    (hok : ∀ line ∈ lines.take n, line.length ≠ 0 ∧ line.length < FILE_LINE_BUFF_SIZE ∧
      atoi_from 0 line.dropLast ≤ INT_MAX) :
    load_list n lines = some ((lines.take n).map line_value) := by
  induction n generalizing lines with
  | zero => simp [load_list]
  | succ n ih =>
    cases lines with
    | nil => simp at h
    | cons line rest =>
      have hr : n ≤ rest.length := by simpa using h
      have hline := hok line (by simp)
      have hrest : ∀ l ∈ rest.take n, l.length ≠ 0 ∧ l.length < FILE_LINE_BUFF_SIZE ∧
          atoi_from 0 l.dropLast ≤ INT_MAX := by
        intro l hl
        exact hok l (by simp [hl])
      simp [load_list, get_next_num_eq line hline.1 hline.2.1 hline.2.2, ih rest hr hrest]

theorem openmp_close_failure_codes :
    (openmp_main ⟨2, some ["list_len=1\n".toList, "7\n".toList], true, false, true⟩ [0]).map
        Outcome.exit_status = some 6 ∧
    (openmp_main ⟨2, some ["list_len=1\n".toList, "7\n".toList], true, true, false⟩ [0]).map
        Outcome.exit_status = some 7 := by
  decide

/-! ## The properties of the specification -/

/-- C1: the global count of the distributed engine is not the number of primes of the
whole list when the worker count does not divide the length.  On the list 2, 3, 5 (all
prime) two ranks get one element each and the reduction gives 2, one rank gives 3, and
the shared-memory loop in index order gives 3. -/
theorem mpi_count_misses_remainder :
    mpi_global_prime_cnt 2 [2, 3, 5] = 2 ∧
    mpi_global_prime_cnt 1 [2, 3, 5] = 3 ∧
    (openmp_loop [2, 3, 5] [0, 1, 2]).1 = 3 ∧
    (∀ x ∈ ([2, 3, 5] : List Int), Nat.Prime x.toNat) := by
  refine ⟨by decide, by decide, by decide, ?_⟩
  intro x hx
  simp only [List.mem_cons, List.mem_singleton, List.not_mem_nil, or_false] at hx
  rcases hx with rfl | rfl | rfl
  · show Nat.Prime 2
    norm_num
  · show Nat.Prime 3
    norm_num
  · show Nat.Prime 5
    norm_num

/-- C2: the evaluation loop marks 1 as prime although 1 is not a prime number; it does
the same for 0 and for the value -1 of an unparsable line, since the loop body runs for
no `j` when `n ≤ 2`. -/
theorem prime_flag_accepts_one :
    prime_flag 1 = true ∧ ¬ Nat.Prime (1 : Int).toNat ∧
    prime_flag 0 = true ∧ prime_flag (-1) = true := by
  refine ⟨by decide, ?_, by decide, by decide⟩
  norm_num

/-- C3: with three elements and two ranks the chunk length is 1, and the index 2 lies in
the block of neither rank. -/
theorem scatter_leaves_last_index :
    num_of_sub_ints 3 2 = 1 ∧ (∀ rank, rank < 2 → 2 ∉ partition_indices 3 2 rank) := by
  decide

/-- C4: on the list 4, 7, 10, 13, 9 with two ranks the root prints the count 2 and the
values 7, 13, 9: the last entry lies in no block, is never evaluated and is printed as it
was loaded, although 9 is not prime.  With one rank the body is 7, 13. -/
theorem mpi_body_prints_unprocessed_tail :
    mpi_global_prime_cnt 2 [4, 7, 10, 13, 9] = 2 ∧
    mpi_body 2 [4, 7, 10, 13, 9] = [7, 13, 9] ∧
    mpi_body 1 [4, 7, 10, 13, 9] = [7, 13] ∧
    ¬ Nat.Prime (9 : Int).toNat := by
  refine ⟨by decide, by decide, by decide, ?_⟩
  show ¬ Nat.Prime 9
  norm_num

/-- C5: for every list and every worker count `W ≥ 1`, the values that the root prints
form a sublist of the input list (same relative order), the gathered buffer has the
length of the input, and each of its entries other than -1 is the input entry at the
same index. -/
theorem mpi_body_sublist (W : Nat) (l : List Int) (_hW : 1 ≤ W) :
    (mpi_body W l).Sublist l ∧
    (mpi_gathered W l).length = l.length ∧
    ∀ (i : Nat) (v : Int), (mpi_gathered W l)[i]? = some v → v ≠ -1 → l[i]? = some v := by
  have hc := covered_le l.length W
  refine ⟨?_, ?_, ?_⟩
  · rw [mpi_body_eq]
    have h1 : ((l.take (covered l.length W)).filter
        (fun x => prime_flag x && decide (x ≠ -1))).Sublist (l.take (covered l.length W)) :=
      List.filter_sublist _
    have h2 : (write_body (l.drop (covered l.length W))).Sublist
        (l.drop (covered l.length W)) := List.filter_sublist _
    have h3 := List.Sublist.append h1 h2
    rwa [List.take_append_drop] at h3
  · rw [mpi_gathered_eq]
    simp only [List.length_append, List.length_map, List.length_take, List.length_drop]
    omega
  · intro i v hv hne
    rw [mpi_gathered_eq] at hv
    by_cases hi : i < covered l.length W
    · rw [List.getElem?_append_left (by simp; omega), List.getElem?_map,
        List.getElem?_take, if_pos hi] at hv
      cases hl : l[i]? with
      | none => simp [hl] at hv
      | some x =>
        simp only [hl, Option.map_some', Option.some.injEq] at hv
        unfold patched at hv
        by_cases hx : prime_flag x = true
        · simp only [hx, if_true] at hv
          rw [hv]
        · simp only [hx] at hv
          exact absurd hv.symm hne
    · have hlen : ((l.take (covered l.length W)).map patched).length = covered l.length W := by
        simp only [List.length_map, List.length_take]
        omega
      rw [List.getElem?_append_right (by omega), hlen, List.getElem?_drop] at hv
      rw [← hv]
      congr 1
      omega

/-- Witness of C5 at `W = 2` and the list 4, 7, 10, 13, 9. -/
theorem mpi_body_sublist_witness :
    1 ≤ 2 ∧
    ((mpi_body 2 [4, 7, 10, 13, 9]).Sublist [4, 7, 10, 13, 9] ∧
      (mpi_gathered 2 [4, 7, 10, 13, 9]).length = ([4, 7, 10, 13, 9] : List Int).length ∧
      ∀ (i : Nat) (v : Int), (mpi_gathered 2 [4, 7, 10, 13, 9])[i]? = some v → v ≠ -1 →
        ([4, 7, 10, 13, 9] : List Int)[i]? = some v) :=
  ⟨by decide, mpi_body_sublist 2 [4, 7, 10, 13, 9] (by decide)⟩

/-- C6: for every list and every two orders in which the indices `0 .. N-1` are claimed
(two permutations of the index range), the shared-memory loop ends with the same count,
and the values it printed are the same up to order. -/
theorem openmp_order_independent (l : List Int) (order1 order2 : List Nat)
    (h1 : order1.Perm (List.range l.length)) (h2 : order2.Perm (List.range l.length)) :
    (openmp_loop l order1).1 = (openmp_loop l order2).1 ∧
    (openmp_loop l order1).2.Perm (openmp_loop l order2).2 := by
  have hp : order1.Perm order2 := h1.trans h2.symm
  have hk := List.Perm.filterMap (openmp_kept l) hp
  rw [openmp_loop_eq, openmp_loop_eq]
  exact ⟨hk.length_eq, hk⟩

/-- Witness of C6 on the list 4, 7, 10, 13, 9 with the orders 4, 3, 2, 1, 0 and
1, 3, 0, 2, 4. -/
theorem openmp_order_independent_witness :
    ([4, 3, 2, 1, 0] : List Nat).Perm (List.range ([4, 7, 10, 13, 9] : List Int).length) ∧
    ([1, 3, 0, 2, 4] : List Nat).Perm (List.range ([4, 7, 10, 13, 9] : List Int).length) ∧
    (openmp_loop [4, 7, 10, 13, 9] [4, 3, 2, 1, 0]).1 =
      (openmp_loop [4, 7, 10, 13, 9] [1, 3, 0, 2, 4]).1 ∧
    (openmp_loop [4, 7, 10, 13, 9] [4, 3, 2, 1, 0]).2.Perm
      (openmp_loop [4, 7, 10, 13, 9] [1, 3, 0, 2, 4]).2 :=
  ⟨by decide, by decide,
    openmp_order_independent [4, 7, 10, 13, 9] [4, 3, 2, 1, 0] [1, 3, 0, 2, 4]
      (by decide) (by decide)⟩

/-- C7: in `mpi.c` the exit codes of the failure categories are not pairwise distinct.
A run with a correct argument and input file whose output file fails to close ends with
status 1, and so does a run with a wrong argument count. -/
theorem mpi_close_failure_reuses_codes :
    (mpi_main 1 ⟨2, some ["list_len=1\n".toList, "7\n".toList], true, true, false⟩).map
        Outcome.exit_status = some 1 ∧
    (mpi_main 1 ⟨3, some ["list_len=1\n".toList, "7\n".toList], true, true, true⟩).map
        Outcome.exit_status = some 1 := by
  decide

/-- C8, as stated, fails: the file with the header `list_len=2` and the lines `x` and `7`
has an element line that is not a number, and both programs run to the end with exit
status 0; the value -1 loaded for the line is counted by both and printed by
`openmp.c`. -/
theorem unparsable_line_does_not_abort :
    is_number "x".toList = false ∧
    openmp_main ⟨2, some ["list_len=2\n".toList, "x\n".toList, "7\n".toList], true, true, true⟩
        [0, 1] = some ⟨0, some 2, [-1, 7]⟩ ∧
    mpi_main 1 ⟨2, some ["list_len=2\n".toList, "x\n".toList, "7\n".toList], true, true, true⟩
        = some ⟨0, some 2, [7]⟩ := by
  decide

/-- C8, amended: for every input file whose header `list_len=<N>` is well formed (shorter
than the line buffer, `N` within `int`) and is followed by at least `N` lines, each of
them shorter than the line buffer and with a number within `int`, and an output file that
opens, loading does not fail: all `N` lines are loaded, a line without NUL character that
holds a character other than a decimal digit before its terminator is loaded as -1, and
both programs end with the exit status that the closing of the files gives to a run that
came through with `ret_val = 0`. -/
theorem unparsable_line_loaded_as_minus_one (env : Env) (header : List Char)
    (lines : List (List Char)) (N W : Nat) (order : List Nat)
    (_hW : 1 ≤ W) (hargc : env.argc = 2) (hin : env.input = some (header :: lines))
    (hlen : 11 ≤ header.length) (hfit : header.length < FILE_LINE_BUFF_SIZE)
    (hpre : header.take 9 = "list_len=".toList)
    (hdig : ∀ c ∈ (header.drop 9).take (header.length - 10),
      0 ≤ ascii_to_num c ∧ ascii_to_num c ≤ 9)
    (hval : atoi_from 0 ((header.drop 9).take (header.length - 10)) = (N : Int))
    (hmax : (N : Int) ≤ INT_MAX) (hN : N ≤ lines.length)
    (hlines : ∀ line ∈ lines.take N, line.length ≠ 0 ∧ line.length < FILE_LINE_BUFF_SIZE ∧
      atoi_from 0 line.dropLast ≤ INT_MAX)
    (hout : env.output_opens = true) :
    ∃ int_list : List Int,
      startup env = Startup.ready int_list ∧ int_list.length = N ∧
      (∀ (i : Nat) (line : List Char), i < N → lines[i]? = some line →
        (∀ c ∈ line.dropLast, c ≠ Char.ofNat 0) →
        (∃ c ∈ line.dropLast, ascii_to_num c < 0 ∨ 9 < ascii_to_num c) →
        int_list[i]? = some (-1)) ∧
      (mpi_main W env).map Outcome.exit_status = some (mpi_cleanup env 0) ∧
      (openmp_main env order).map Outcome.exit_status = some (openmp_cleanup env 0) := by
  have hs : startup env = Startup.ready ((lines.take N).map line_value) := by
    unfold startup
    have hlen2 : ¬ (header.length < 11) := by omega
    have hfit2 : ¬ (FILE_LINE_BUFF_SIZE ≤ header.length) := by omega
    have hnum := is_number_of_digits _ hdig
    have hat : atoi ((header.drop 9).take (header.length - 10)) = some (N : Int) := by
      unfold atoi
      rw [hval, if_pos hmax]
    simp only [hargc, hin, ne_eq, not_true_eq_false, if_false, hlen2, hpre, or_self, hfit2,
      hnum, Bool.not_true, Bool.false_eq_true, hat, Int.toNat_ofNat,
      load_list_eq N lines hN hlines, hout]
  refine ⟨(lines.take N).map line_value, hs, ?_, ?_, ?_, ?_⟩
  · simp [List.length_take, Nat.min_eq_left hN]
  · intro i line hi hline hnul hbad
    rw [List.getElem?_map, List.getElem?_take, if_pos hi, hline]
    simp [line_value, is_number_of_non_digit _ hnul hbad]
  · simp [mpi_main, hs]
  · simp [openmp_main, hs]

/-- Witness of the amended C8 on the file `list_len=2`, `x`, `7`. -/
theorem unparsable_line_loaded_as_minus_one_witness :
    ∃ int_list : List Int,
      startup ⟨2, some ["list_len=2\n".toList, "x\n".toList, "7\n".toList], true, true, true⟩
        = Startup.ready int_list ∧ int_list.length = 2 ∧
      (∀ (i : Nat) (line : List Char), i < 2 →
        (["x\n".toList, "7\n".toList] : List (List Char))[i]? = some line →
        (∀ c ∈ line.dropLast, c ≠ Char.ofNat 0) →
        (∃ c ∈ line.dropLast, ascii_to_num c < 0 ∨ 9 < ascii_to_num c) →
        int_list[i]? = some (-1)) ∧
      (mpi_main 1
        ⟨2, some ["list_len=2\n".toList, "x\n".toList, "7\n".toList], true, true, true⟩).map
          Outcome.exit_status = some 0 ∧
      (openmp_main
        ⟨2, some ["list_len=2\n".toList, "x\n".toList, "7\n".toList], true, true, true⟩
        [0, 1]).map Outcome.exit_status = some 0 :=
  unparsable_line_loaded_as_minus_one
    ⟨2, some ["list_len=2\n".toList, "x\n".toList, "7\n".toList], true, true, true⟩
    "list_len=2\n".toList ["x\n".toList, "7\n".toList] 2 1 [0, 1]
    (by decide) rfl rfl (by decide) (by decide) (by decide) (by decide) (by decide)
    (by decide) (by decide) (by decide) rfl

/-- C9: for every integer `n ≥ 2` the trial-division loop leaves the flag `prime` set if
and only if no integer `j` with `2 ≤ j < n` divides `n`, which holds if and only if `n`
is a prime number; for `n = 2` and `n = 3` the flag is set. -/
theorem trial_division_marks_primes (n : Int) (h : 2 ≤ n) :
    (prime_flag n = true ↔ ∀ j : Int, 2 ≤ j → j < n → ¬ j ∣ n) ∧
    ((∀ j : Int, 2 ≤ j → j < n → ¬ j ∣ n) ↔ Nat.Prime n.toNat) ∧
    (n = 2 ∨ n = 3 → prime_flag n = true) := by
  refine ⟨prime_flag_iff_no_divisor n h, no_divisor_iff_prime n h, ?_⟩
  rintro (rfl | rfl)
  · decide
  · decide

/-- Witness of C9 at `n = 7`. -/
theorem trial_division_marks_primes_witness :
    (2 : Int) ≤ 7 ∧
    ((prime_flag 7 = true ↔ ∀ j : Int, 2 ≤ j → j < 7 → ¬ j ∣ 7) ∧
      ((∀ j : Int, 2 ≤ j → j < 7 → ¬ j ∣ 7) ↔ Nat.Prime (7 : Int).toNat) ∧
      ((7 : Int) = 2 ∨ (7 : Int) = 3 → prime_flag 7 = true)) :=
  ⟨by decide, trial_division_marks_primes 7 (by decide)⟩

/-- C10: in the distributed engine, when the worker count `W ≥ 1` divides the length of
the list and no element of the list is -1, the count printed in the header equals the
number of values printed below it. -/
theorem mpi_header_count_eq_body_length (W : Nat) (l : List Int) (_hW : 1 ≤ W)
    (hdiv : W ∣ l.length) (hne : ∀ x ∈ l, x ≠ -1) :
    mpi_global_prime_cnt W l = (mpi_body W l).length := by
  rw [mpi_global_prime_cnt_eq, mpi_body_eq, covered_of_dvd _ _ hdiv, List.take_length,
    List.drop_length, List.countP_eq_length_filter]
  have hf : l.filter (fun x => prime_flag x && decide (x ≠ -1)) = l.filter prime_flag := by
    apply List.filter_congr
    intro x hx
    simp [hne x hx]
  rw [hf]
  simp [write_body]

/-- Witness of C10 at `W = 2` and the list 2, 3, 4, 5, 6, 7. -/
theorem mpi_header_count_eq_body_length_witness :
    (1 ≤ 2 ∧ 2 ∣ ([2, 3, 4, 5, 6, 7] : List Int).length ∧
      ∀ x ∈ ([2, 3, 4, 5, 6, 7] : List Int), x ≠ -1) ∧
    mpi_global_prime_cnt 2 [2, 3, 4, 5, 6, 7] = (mpi_body 2 [2, 3, 4, 5, 6, 7]).length :=
  ⟨⟨by decide, by decide, by decide⟩,
    mpi_header_count_eq_body_length 2 [2, 3, 4, 5, 6, 7] (by decide) (by decide) (by decide)⟩

/-- C11: when the worker count `W ≥ 1` divides the length of the list and no element of
the list is -1, the distributed engine and the shared-memory loop taken in index order
end with the same prime count and print the same sequence of values. -/
theorem mpi_eq_openmp_index_order (W : Nat) (l : List Int) (_hW : 1 ≤ W)
    (hdiv : W ∣ l.length) (hne : ∀ x ∈ l, x ≠ -1) :
    mpi_global_prime_cnt W l = (openmp_loop l (List.range l.length)).1 ∧
    mpi_body W l = (openmp_loop l (List.range l.length)).2 := by
  rw [openmp_loop_index_order]
  exact ⟨mpi_global_prime_cnt_of_dvd W l hdiv, mpi_body_of_dvd W l hdiv hne⟩

/-- Witness of C11 at `W = 3` and the list 2, 3, 4, 5, 6, 7. -/
theorem mpi_eq_openmp_index_order_witness :
    (1 ≤ 3 ∧ 3 ∣ ([2, 3, 4, 5, 6, 7] : List Int).length ∧
      ∀ x ∈ ([2, 3, 4, 5, 6, 7] : List Int), x ≠ -1) ∧
    mpi_global_prime_cnt 3 [2, 3, 4, 5, 6, 7] =
      (openmp_loop [2, 3, 4, 5, 6, 7] (List.range ([2, 3, 4, 5, 6, 7] : List Int).length)).1 ∧
    mpi_body 3 [2, 3, 4, 5, 6, 7] =
      (openmp_loop [2, 3, 4, 5, 6, 7] (List.range ([2, 3, 4, 5, 6, 7] : List Int).length)).2 :=
  ⟨⟨by decide, by decide, by decide⟩,
    mpi_eq_openmp_index_order 3 [2, 3, 4, 5, 6, 7] (by decide) (by decide) (by decide)⟩

end FindPrimes
